import Mathlib

/-!
Verification development for the flecs archetype table storage engine
(src/storage/table.c, table_data part). The C code is shallowly embedded:
vectors become Lean lists paired with an explicit capacity (the flecs
`ecs_vec_t` has `count` and `size` fields; the allocator rounds capacities
to the next power of two), component elements become `Nat` values, and the
user-supplied type hooks become optional functions on element values.
The world-owned entity index (record pointers) is modelled as a pair of
functions from record identifiers to the packed `row` field and to the
owning table identifier.
-/

namespace Flecs

/-! ## Row encoding (entity-index record `row` field)

From the C macros: the `row` field of a record is a `uint32_t` whose low
28 bits hold the row index and whose high 4 bits hold row flags:
`ECS_ROW_MASK = 0x0FFFFFFF`, `ECS_ROW_FLAGS_MASK = ~ECS_ROW_MASK` (as u32),
`ECS_RECORD_TO_ROW(v) = v & ECS_ROW_MASK`,
`ECS_RECORD_TO_ROW_FLAGS(v) = v & ECS_ROW_FLAGS_MASK`,
`ECS_ROW_TO_RECORD(row, flags) = row | flags`. -/

/-- ECS_ROW_MASK = 0x0FFFFFFF = 2^28 - 1. -/
def ECS_ROW_MASK : Nat := 2 ^ 28 - 1

/-- ECS_ROW_FLAGS_MASK = 0xF0000000, the uint32 complement of ECS_ROW_MASK,
written as (2^4 - 1) shifted left by 28. -/
def ECS_ROW_FLAGS_MASK : Nat := (2 ^ 4 - 1) <<< 28

/-- ECS_RECORD_TO_ROW: extract the row index bits of a record row field. -/
def ecsRecordToRow (v : Nat) : Nat := v &&& ECS_ROW_MASK

/-- ECS_RECORD_TO_ROW_FLAGS: extract the flag bits of a record row field. -/
def ecsRecordToRowFlags (v : Nat) : Nat := v &&& ECS_ROW_FLAGS_MASK

/-- ECS_ROW_TO_RECORD: pack a row index and flag bits into a row field. -/
def ecsRowToRecord (row flags : Nat) : Nat := row ||| flags

theorem ECS_ROW_FLAGS_MASK_eq : ECS_ROW_FLAGS_MASK = 15 * 2 ^ 28 := by
  decide

theorem and_rowMask_of_lt {idx : Nat} (h : idx < 2 ^ 28) :
    idx &&& ECS_ROW_MASK = idx := by
  unfold ECS_ROW_MASK
  rw [Nat.and_pow_two_sub_one_eq_mod]
  exact Nat.mod_eq_of_lt h

theorem and_flagsMask_of_lt {idx : Nat} (h : idx < 2 ^ 28) :
    idx &&& ECS_ROW_FLAGS_MASK = 0 := by
  apply Nat.eq_of_testBit_eq
  intro i
  simp only [Nat.testBit_land, Nat.zero_testBit]
  unfold ECS_ROW_FLAGS_MASK
  rw [Nat.testBit_shiftLeft]
  by_cases hi : 28 ≤ i
  · have : idx < 2 ^ i := lt_of_lt_of_le h (Nat.pow_le_pow_right (by omega) hi)
    simp [Nat.testBit_lt_two_pow this]
  · simp [hi]

theorem and_or_mask (a b m : Nat) : (a ||| b) &&& m = (a &&& m) ||| (b &&& m) := by
  apply Nat.eq_of_testBit_eq
  intro i
  simp only [Nat.testBit_land, Nat.testBit_lor]
  cases a.testBit i <;> cases b.testBit i <;> cases m.testBit i <;> rfl

theorem and_and_mask (x m : Nat) : (x &&& m) &&& m = x &&& m := by
  rw [Nat.and_assoc]
  simp

theorem flagsMask_and_rowMask : ECS_ROW_FLAGS_MASK &&& ECS_ROW_MASK = 0 := by
  decide

theorem rowMask_and_flagsMask : ECS_ROW_MASK &&& ECS_ROW_FLAGS_MASK = 0 := by
  decide

/-- Packing a row index below 2^28 with flag bits: the row bits come out as
the index again. -/
theorem ecsRecordToRow_pack {idx x : Nat} (h : idx < 2 ^ 28) :
    ecsRecordToRow (ecsRowToRecord idx (ecsRecordToRowFlags x)) = idx := by
  unfold ecsRecordToRow ecsRowToRecord ecsRecordToRowFlags
  rw [and_or_mask, and_rowMask_of_lt h, Nat.and_assoc, flagsMask_and_rowMask]
  simp

/-- Packing a row index below 2^28 with flag bits: the flag bits are
preserved. -/
theorem ecsRecordToRowFlags_pack {idx x : Nat} (h : idx < 2 ^ 28) :
    ecsRecordToRowFlags (ecsRowToRecord idx (ecsRecordToRowFlags x)) =
      ecsRecordToRowFlags x := by
  unfold ecsRowToRecord ecsRecordToRowFlags
  rw [and_or_mask, and_flagsMask_of_lt h, and_and_mask]
  simp

/-- A uint32 row field is recovered from its row bits and flag bits. -/
theorem row_field_recompose {x : Nat} (h : x < 2 ^ 32) :
    ecsRowToRecord (ecsRecordToRow x) (ecsRecordToRowFlags x) = x := by
  unfold ecsRowToRecord ecsRecordToRow ecsRecordToRowFlags
  apply Nat.eq_of_testBit_eq
  intro i
  simp only [Nat.testBit_lor, Nat.testBit_land]
  unfold ECS_ROW_MASK ECS_ROW_FLAGS_MASK
  rw [Nat.testBit_two_pow_sub_one, Nat.testBit_shiftLeft]
  by_cases h28 : i < 28
  · simp [h28, Nat.not_le.mpr h28]
  · by_cases h32 : i < 32
    · have : Nat.testBit 15 (i - 28) = true := by
        rw [show (15 : Nat) = 2 ^ 4 - 1 from rfl, Nat.testBit_two_pow_sub_one]
        simp only [decide_eq_true_eq]
        omega
      simp [h28, Nat.not_lt.mp h28, this]
    · have hx : x.testBit i = false :=
        Nat.testBit_lt_two_pow
          (lt_of_lt_of_le h (Nat.pow_le_pow_right (by omega) (by omega)))
      simp [hx]

/-! ## Primitive container model (ecs_vec_t)

A flecs vector has a `count` (number of live elements) and a `size`
(capacity). `ecs_vec_set_size` rounds the requested capacity up to the next
power of two (minimum 2, never below `count`). Element payloads are
modelled as `Nat` values; an uninitialized slot is modelled as the value 0. -/

/-- flecs_next_pow_of_2: smallest power of two that is at least n (for
n up to 2^64, which covers all counts used here). -/
def flecs_next_pow_of_2 (n : Nat) : Nat :=
  (List.range 64).foldl (fun acc _ => if acc < n then acc * 2 else acc) 1

/-- An ecs_vec_t: element list plus capacity. -/
structure Vec (α : Type) where
  data : List α
  cap : Nat
deriving Repr, DecidableEq

/-- ecs_vec_count. -/
def Vec.count {α : Type} (v : Vec α) : Nat := v.data.length

/-- ecs_vec_set_size: set the capacity to hold elemCount elements, rounded
to the next power of two, at least 2, never below the live count. -/
def Vec.setSize {α : Type} (v : Vec α) (elemCount : Nat) : Vec α :=
  if v.cap ≠ elemCount then
    { v with cap := max 2 (flecs_next_pow_of_2 (max elemCount v.count)) }
  else v

/-- ecs_vec_set_min_size: grow the capacity to at least elemCount. -/
def Vec.setMinSize {α : Type} (v : Vec α) (elemCount : Nat) : Vec α :=
  if v.cap < elemCount then v.setSize elemCount else v

/-- ecs_vec_append: push one element, growing the capacity when full. -/
def Vec.appendElem {α : Type} (v : Vec α) (x : α) : Vec α :=
  let v := if v.cap = v.count then v.setSize (v.count + 1) else v
  { v with data := v.data ++ [x] }

/-- ecs_vec_remove_last. -/
def Vec.removeLast {α : Type} (v : Vec α) : Vec α :=
  { v with data := v.data.dropLast }

/-! ## Type hooks and table storage model

`ecs_type_info_t` hooks: in-place constructors are modelled by the value
they store (`ctor`), and the binary move/copy hooks by the function taking
the source element value to the value written into the destination slot.
`on_add`/`on_remove` are observer callbacks; only their presence matters,
their invocations are recorded as events. -/

structure Hooks where
  ctor : Option Nat
  dtor : Option (Nat → Nat)
  copy : Option (Nat → Nat)
  move : Option (Nat → Nat)
  copy_ctor : Option (Nat → Nat)
  move_ctor : Option (Nat → Nat)
  ctor_move_dtor : Option (Nat → Nat)
  move_dtor : Option (Nat → Nat)
  on_add : Bool
  on_remove : Bool

/-- The hooks record with no hook registered. -/
def Hooks.none : Hooks :=
  ⟨Option.none, Option.none, Option.none, Option.none, Option.none,
   Option.none, Option.none, Option.none, false, false⟩

/-- Value produced by the registered constructor; an absent ctor leaves the
slot uninitialized (modelled as 0). -/
def ctorValD (ti : Hooks) : Nat :=
  match ti.ctor with
  | some v => v
  | none => 0

/-- ecs_column_t: component id, data vector, type info. -/
structure Column where
  id : Nat
  data : Vec Nat
  ti : Hooks

/-- ecs_bitset_column_t: id of the TOGGLE-flagged id and the packed bit
array (one bit per row). -/
structure BitsetCol where
  id : Nat
  data : List Bool
deriving Repr, DecidableEq

/-- ecs_table_data_t: parallel entity/record vectors, component columns,
bitset columns, lazy dirty state, and the table flags the row operations
branch on (EcsTableIsComplex, EcsTableHasDtors, EcsTableHasMove). -/
structure TableData where
  entities : Vec Nat
  records : Vec (Option Nat)
  columns : List Column
  bitsets : List BitsetCol
  dirty_state : Option (List Nat)
  isComplex : Bool
  hasDtors : Bool
  hasMove : Bool

/-- The world-owned entity index: record id to packed row field, and
record id to owning table id. -/
structure EntityIndex where
  row : Nat → Nat
  table : Nat → Nat

/-- Hook invocation events observed by the world (ctor/dtor and the
on_add/on_remove callbacks), with the row range they cover. -/
inductive HookEv where
  | ctorRun (row count : Nat)
  | ctorMoveDtorRun (count : Nat)
  | onAddRun (row count : Nat)
  | onRemoveRun (row count : Nat)
  | dtorRun (row count : Nat)
deriving Repr, DecidableEq

/-- flecs_table_data_mark_table_dirty: increment dirty_state[index] when
the dirty state array has been allocated. -/
def flecs_table_data_mark_table_dirty (ds : Option (List Nat)) (index : Nat) :
    Option (List Nat) :=
  match ds with
  | some l => some (l.set index (l.getD index 0 + 1))
  | none => none

/-- Overwrite the cnt slots starting at start with val (in-place ctor runs
over a row range). -/
def listFillRange (l : List Nat) (start cnt val : Nat) : List Nat :=
  (List.range l.length).map
    (fun i => if start ≤ i ∧ i < start + cnt then val else l.getD i 0)

/-! ## Column append (flecs_table_data_column_append) -/

/-- In-place growth path of flecs_table_data_column_append: set the
capacity to dst_size when the vector may realloc, then ecs_vec_grow's own
capacity check before the count is raised. Only the capacity changes. -/
def flecs_column_grow_vec (v : Vec Nat) (to_add dst_size : Nat)
    (can_realloc : Bool) : Vec Nat :=
  let v := if can_realloc then v.setSize dst_size else v
  if v.cap < v.count + to_add then v.setSize (v.count + to_add) else v

/-- flecs_table_data_column_append: grow a column by to_add elements with
target capacity dst_size. When the column may realloc and the component has
a ctor_move_dtor hook, old elements are relocated manually through that
hook into a fresh buffer; otherwise the vector grows in place. New slots
are constructed when construct is set and a ctor exists. -/
def flecs_table_data_column_append (column : Column) (to_add dst_size : Nat)
    (construct : Bool) : Column × List HookEv :=
  let ti := column.ti
  let count := column.data.count
  let src_size := column.data.cap
  let can_realloc : Bool := dst_size != src_size
  if 0 < count ∧ can_realloc ∧ ti.ctor_move_dtor.isSome then
    let f := ti.ctor_move_dtor.getD id
    let newSlots :=
      if construct then List.replicate to_add (ctorValD ti)
      else List.replicate to_add 0
    let dst : Vec Nat := { data := column.data.data.map f ++ newSlots, cap := dst_size }
    ({ column with data := dst },
     HookEv.ctorMoveDtorRun count ::
       (if construct then [HookEv.ctorRun count to_add] else []))
  else
    let v := flecs_column_grow_vec column.data to_add dst_size can_realloc
    let constructed := construct ∧ ti.ctor.isSome
    let newVal := if constructed then ctorValD ti else 0
    let v : Vec Nat := { v with data := v.data ++ List.replicate to_add newVal }
    ({ column with data := v },
     if constructed then [HookEv.ctorRun count to_add] else [])

/-- flecs_table_data_invoke_add_hooks: optionally construct the range, then
fire the on_add callback when registered. -/
def flecs_table_data_invoke_add_hooks (c : Column) (row count : Nat)
    (construct : Bool) : Column × List HookEv :=
  let doCtor := construct ∧ c.ti.ctor.isSome
  let c' :=
    if doCtor then
      { c with data := { c.data with data := listFillRange c.data.data row count (ctorValD c.ti) } }
    else c
  let evs :=
    (if doCtor then [HookEv.ctorRun row count] else []) ++
      (if c.ti.on_add then [HookEv.onAddRun row count] else [])
  (c', evs)

/-! ## Append (flecs_table_data_append, flecs_table_data_appendn) -/

/-- flecs_table_data_fast_append: extend every column by one uninitialized
slot (tables without complex flags). -/
def flecs_table_data_fast_append (columns : List Column) : List Column :=
  columns.map (fun c => { c with data := c.data.appendElem 0 })

/-- Map an indexed column step over the column list, concatenating the
events tagged with the column index. -/
def mapColumnsEv (f : Nat → Column → Column × List HookEv) :
    Nat → List Column → List Column × List (Nat × HookEv)
  | _, [] => ([], [])
  | i, c :: cs =>
    let r := f i c
    let rest := mapColumnsEv f (i + 1) cs
    (r.1 :: rest.1, r.2.map (fun e => (i, e)) ++ rest.2)

/-- flecs_table_data_append: push the entity and record pointer, mark the
entity vector dirty, then extend the columns (fast path when the table has
no complex flags; otherwise grow each column with hook handling and fire
on_add when requested) and the bitset columns. Returns the row of the new
entity (the count before the append). -/
def flecs_table_data_append (data : TableData) (entity : Nat)
    (record : Option Nat) (construct on_add : Bool) :
    TableData × Nat × List (Nat × HookEv) :=
  let count := data.entities.count
  let entities := data.entities.appendElem entity
  let records := data.records.appendElem record
  let dirty := flecs_table_data_mark_table_dirty data.dirty_state 0
  let data :=
    { data with entities := entities, records := records, dirty_state := dirty }
  if ¬ data.isComplex then
    ({ data with columns := flecs_table_data_fast_append data.columns }, count, [])
  else
    let size := data.entities.cap
    let step := fun (_ : Nat) (c : Column) =>
      let r := flecs_table_data_column_append c 1 size construct
      let evs := r.2 ++
        (if on_add ∧ c.ti.on_add then [HookEv.onAddRun count 1] else [])
      (r.1, evs)
    let cols := mapColumnsEv step 0 data.columns
    let bitsets := data.bitsets.map (fun b => { b with data := b.data ++ [false] })
    ({ data with columns := cols.1, bitsets := bitsets }, count, cols.2)

/-- Per-column step of flecs_table_data_appendn: grow the column with
construct=true, then run the add hooks with construct=false (the source
comment's on_add=false position is the construct argument of the hook
helper). -/
def appendnColumnStep (cur_count to_add size : Nat) :
    Nat → Column → Column × List HookEv :=
  fun _ c =>
    let r := flecs_table_data_column_append c to_add size true
    let r2 := flecs_table_data_invoke_add_hooks r.1 cur_count to_add false
    (r2.1, r.2 ++ r2.2)

/-- flecs_table_data_appendn: reserve the records, entities and every
column for cur_count + to_add elements, copy the provided ids (or zero) and
null record pointers into the new slots, construct the new column slots
(construct is true for every column), invoke the add hooks with
construct=false, extend the bitsets, and mark the entity vector dirty.
Returns the row of the first added entity. -/
def flecs_table_data_appendn (data : TableData) (to_add : Nat)
    (ids : Option (List Nat)) : TableData × Nat × List (Nat × HookEv) :=
  let cur_count := data.entities.count
  let size := to_add + cur_count
  let records := data.records.setSize size
  let records := { records with data := records.data ++ List.replicate to_add Option.none }
  let size := if records.cap > size then records.cap else size
  let entities := data.entities.setSize size
  let newIds :=
    match ids with
    | some l => l.take to_add
    | none => List.replicate to_add 0
  let entities := { entities with data := entities.data ++ newIds }
  let cols := mapColumnsEv (appendnColumnStep cur_count to_add size) 0 data.columns
  let bitsets := data.bitsets.map (fun b => { b with data := b.data ++ List.replicate to_add false })
  let dirty := flecs_table_data_mark_table_dirty data.dirty_state 0
  let data' : TableData :=
    { data with
      entities := entities
      records := records
      columns := cols.1
      bitsets := bitsets
      dirty_state := dirty }
  (data', cur_count, cols.2)

/-- flecs_table_append (table.c): perform the data append; when the
returned row is 0 the table just became non-empty and
flecs_table_set_empty is signalled. The Bool result records whether the
signal was issued. -/
def flecs_table_append (data : TableData) (entity : Nat)
    (record : Option Nat) (construct on_add : Bool) :
    TableData × Nat × Bool :=
  let r := flecs_table_data_append data entity record construct on_add
  (r.1, r.2.1, r.2.1 == 0)

/-! ## Move between tables (flecs_table_data_move) -/

/-- same_entity (table_data.c line 2067): component data moves between
tables when source and destination entity coincide; a copy is used when
cloning to a different entity. -/
def flecs_move_same_entity (dst_entity src_entity : Nat) : Bool :=
  dst_entity == src_entity

/-- use_move_dtor (table_data.c line 2073): the moved-away-from storage is
destructed here only when the source row is the last row of the source
table. -/
def flecs_move_use_move_dtor (src_count src_index : Nat) : Bool :=
  src_count == src_index + 1

/-- Matched-column transfer of flecs_table_data_move (lines 2087-2116):
pick move_ctor for a same-entity move, replaced by ctor_move_dtor when the
source row is last or when move_ctor is absent; pick copy_ctor for a
cross-entity clone; fall back to memcpy (plain value copy) when the
selected hook is absent. Returns the value stored into the dst slot. -/
def flecs_move_matched_value (same_entity use_move_dtor : Bool) (ti : Hooks)
    (srcVal : Nat) : Nat :=
  if same_entity then
    let mv := ti.move_ctor
    let mv := if use_move_dtor || mv.isNone then ti.ctor_move_dtor else mv
    match mv with
    | some f => f srcVal
    | none => srcVal
  else
    match ti.copy_ctor with
    | some f => f srcVal
    | none => srcVal

/-- flecs_table_data_invoke_remove_hooks: fire on_remove when registered,
then the destructor when requested and registered (events only; the
destructed slot's bytes are dropped or overwritten by the caller). -/
def flecs_table_data_invoke_remove_hooks (c : Column) (row count : Nat)
    (dtor : Bool) : List HookEv :=
  (if c.ti.on_remove then [HookEv.onRemoveRun row count] else []) ++
    (if dtor ∧ c.ti.dtor.isSome then [HookEv.dtorRun row count] else [])

/-- flecs_table_fast_move: two-pointer walk over both column lists (sorted
by component id); matching ids copy the element bytes. -/
def flecs_table_fast_move (dst_index src_index : Nat) :
    List Column → List Column → List Column
  | ds, [] => ds
  | [], _ => []
  | d :: ds, s :: ss =>
    if d.id = s.id then
      { d with data := { d.data with
          data := d.data.data.set dst_index (s.data.data.getD src_index 0) } } ::
        flecs_table_fast_move dst_index src_index ds ss
    else if d.id < s.id then
      d :: flecs_table_fast_move dst_index src_index ds (s :: ss)
    else
      flecs_table_fast_move dst_index src_index (d :: ds) ss
termination_by l r => (l.length, r.length)

/-- flecs_table_data_move_bitset_columns: two-pointer walk over the bitset
columns; matching ids copy count bits from src to dst (growing dst when
needed); a source column with no destination is finalized; when clear is
set the remaining source columns are finalized as well. Returns the new
dst and src bitset column lists. -/
def flecs_table_data_move_bitset_columns (dst_index src_index count : Nat)
    (clear : Bool) : List BitsetCol → List BitsetCol → List BitsetCol × List BitsetCol
  | ds, [] => (ds, [])
  | [], s :: ss =>
    (([] : List BitsetCol),
      (s :: ss).map (fun c => if clear then { c with data := [] } else c))
  | d :: ds, s :: ss =>
    if d.id = s.id then
      let ensured := d.data ++ List.replicate (dst_index + count - d.data.length) false
      let copied := (List.range ensured.length).map (fun i =>
        if dst_index ≤ i ∧ i < dst_index + count then
          s.data.getD (src_index + (i - dst_index)) false
        else ensured.getD i false)
      let s' := if clear then { s with data := ([] : List Bool) } else s
      let rest := flecs_table_data_move_bitset_columns dst_index src_index count clear ds ss
      ({ d with data := copied } :: rest.1, s' :: rest.2)
    else if d.id < s.id then
      let rest := flecs_table_data_move_bitset_columns dst_index src_index count clear ds (s :: ss)
      (d :: rest.1, rest.2)
    else
      let rest := flecs_table_data_move_bitset_columns dst_index src_index count clear (d :: ds) ss
      (rest.1, { s with data := ([] : List Bool) } :: rest.2)
termination_by l r => (l.length, r.length)

/-- General path of flecs_table_data_move (lines 2081-2139): two-pointer
walk; matching ids transfer the element through flecs_move_matched_value;
a dst-only column runs the add hooks; a src-only column runs the remove
hooks with use_move_dtor deciding the destructor. Returns the new dst
columns and hook events. -/
def flecs_move_columns (same_entity use_move_dtor construct : Bool)
    (dst_index src_index : Nat) :
    List Column → List Column → List Column × List HookEv
  | ds, [] =>
    let rs := ds.map (fun d => flecs_table_data_invoke_add_hooks d dst_index 1 construct)
    (rs.map Prod.fst, (rs.map Prod.snd).flatten)
  | [], s :: ss =>
    (([] : List Column),
      ((s :: ss).map
        (fun s => flecs_table_data_invoke_remove_hooks s src_index 1 use_move_dtor)).flatten)
  | d :: ds, s :: ss =>
    if d.id = s.id then
      let newVal := flecs_move_matched_value same_entity use_move_dtor d.ti
        (s.data.data.getD src_index 0)
      let d' := { d with data := { d.data with data := d.data.data.set dst_index newVal } }
      let rest := flecs_move_columns same_entity use_move_dtor construct
        dst_index src_index ds ss
      (d' :: rest.1, rest.2)
    else if d.id < s.id then
      let r := flecs_table_data_invoke_add_hooks d dst_index 1 construct
      let rest := flecs_move_columns same_entity use_move_dtor construct
        dst_index src_index ds (s :: ss)
      (r.1 :: rest.1, r.2 ++ rest.2)
    else
      let evs := flecs_table_data_invoke_remove_hooks s src_index 1 use_move_dtor
      let rest := flecs_move_columns same_entity use_move_dtor construct
        dst_index src_index (d :: ds) ss
      (rest.1, evs ++ rest.2)
termination_by l r => (l.length, r.length)

/-- flecs_table_data_move: fast path (plain memcpy per matching column)
when neither table is complex; otherwise move bitset bits, then walk the
columns with the hook selection of flecs_move_matched_value, where
same_entity compares the two entity ids and use_move_dtor holds when the
src row is at the last index of the src table. -/
def flecs_table_data_move (dst_entity src_entity : Nat) (dst : TableData)
    (dst_index : Nat) (src : TableData) (src_index : Nat) (construct : Bool) :
    TableData × TableData × List HookEv :=
  if ¬ (dst.isComplex ∨ src.isComplex) then
    ({ dst with columns := flecs_table_fast_move dst_index src_index dst.columns src.columns },
      src, [])
  else
    let bs := flecs_table_data_move_bitset_columns dst_index src_index 1 false
      dst.bitsets src.bitsets
    let same_entity := flecs_move_same_entity dst_entity src_entity
    let use_move_dtor := flecs_move_use_move_dtor src.entities.count src_index
    let cols := flecs_move_columns same_entity use_move_dtor construct
      dst_index src_index dst.columns src.columns
    ({ dst with columns := cols.1, bitsets := bs.1 },
      { src with bitsets := bs.2 }, cols.2)

/-! ## Delete (flecs_table_data_delete) -/

/-- Value written by move_dtor, memcpy when the hook is absent. -/
def moveDtorD (ti : Hooks) (v : Nat) : Nat :=
  match ti.move_dtor with
  | some f => f v
  | none => v

/-- flecs_table_data_fast_delete_last: pop the last element of every
column. -/
def flecs_table_data_fast_delete_last (columns : List Column) : List Column :=
  columns.map (fun c => { c with data := c.data.removeLast })

/-- flecs_table_data_fast_delete: ecs_vec_remove per column (move the last
element into the removed slot, drop the last slot). -/
def flecs_table_data_fast_delete (columns : List Column) (index : Nat) :
    List Column :=
  columns.map (fun c =>
    { c with data := { c.data with
        data := (c.data.data.set index (c.data.data.getD (c.data.count - 1) 0)).dropLast } })

/-- flecs_table_data_delete: move the last entity id and record pointer
into the deleted slot and drop the last slot; when the deleted row is not
the last and the moved record is non-null, patch its row field to the
deleted index preserving the flag bits; mark the entity vector dirty; for
the columns take the fast path on simple tables, pop the last slot when
deleting the last row, and otherwise move the last element into the hole
through move_dtor (memcpy when absent); finally swap-remove the bit of
every bitset column. Hook callbacks fire only for their storage effects in
this model. Returns the new count. -/
def flecs_table_data_delete (w : EntityIndex) (data : TableData)
    (index : Nat) (destruct : Bool) : EntityIndex × TableData × Nat :=
  let count := data.entities.count - 1
  let entity_to_move := data.entities.data.getD count 0
  let entities := { data.entities with
    data := (data.entities.data.set index entity_to_move).dropLast }
  let record_to_move := data.records.data.getD count Option.none
  let records := { data.records with
    data := (data.records.data.set index record_to_move).dropLast }
  let w :=
    if index ≠ count then
      match record_to_move with
      | some p =>
        let newRow := Function.update w.row p
          (ecsRowToRecord index (ecsRecordToRowFlags (w.row p)))
        { w with row := newRow }
      | none => w
    else w
  let dirty := flecs_table_data_mark_table_dirty data.dirty_state 0
  let columns :=
    if ¬ data.isComplex then
      if index == count then flecs_table_data_fast_delete_last data.columns
      else flecs_table_data_fast_delete data.columns index
    else if index == count then
      flecs_table_data_fast_delete_last data.columns
    else if data.hasDtors ∨ data.hasMove then
      data.columns.map (fun c =>
        let src := c.data.data.getD (c.data.count - 1) 0
        { c with data := { c.data with
            data := (c.data.data.set index (moveDtorD c.ti src)).dropLast } })
    else flecs_table_data_fast_delete data.columns index
  let bitsets := data.bitsets.map (fun b =>
    { b with data := (b.data.set index (b.data.getD (b.data.length - 1) false)).dropLast })
  let data' : TableData :=
    { data with
      entities := entities
      records := records
      dirty_state := dirty
      columns := columns
      bitsets := bitsets }
  (w, data', count)

/-! ## Swap (flecs_table_data_swap) -/

/-- Swap two elements of a list (the C code copies element i into a stack
buffer, element j over element i, and the buffer over element j). -/
def listSwap {α : Type} (d : α) (l : List α) (i j : Nat) : List α :=
  (l.set i (l.getD j d)).set j (l.getD i d)

/-- flecs_table_data_swap: no-op when the two rows coincide; otherwise
mark the entity vector dirty, swap entity ids and record pointers, patch
both records' row fields preserving their flag bits, swap the bit of every
bitset column and the element of every component column. The two record
pointers are asserted non-null by the C code; the model returns the state
unchanged in that unreachable case. -/
def flecs_table_data_swap (w : EntityIndex) (data : TableData)
    (row_1 row_2 : Nat) : EntityIndex × TableData :=
  if row_1 == row_2 then (w, data)
  else
    let dirty := flecs_table_data_mark_table_dirty data.dirty_state 0
    match data.records.data.getD row_1 Option.none,
        data.records.data.getD row_2 Option.none with
    | some p1, some p2 =>
      let flags_1 := ecsRecordToRowFlags (w.row p1)
      let flags_2 := ecsRecordToRowFlags (w.row p2)
      let entities := listSwap 0 data.entities.data row_1 row_2
      let rowf := Function.update w.row p1 (ecsRowToRecord row_2 flags_1)
      let rowf := Function.update rowf p2 (ecsRowToRecord row_1 flags_2)
      let records := (data.records.data.set row_1 (some p2)).set row_2 (some p1)
      let bitsets := data.bitsets.map (fun b =>
        { b with data := listSwap false b.data row_1 row_2 })
      let columns := data.columns.map (fun c =>
        { c with data := { c.data with data := listSwap 0 c.data.data row_1 row_2 } })
      let data' : TableData :=
        { data with
          entities := { data.entities with data := entities }
          records := { data.records with data := records }
          dirty_state := dirty
          bitsets := bitsets
          columns := columns }
      ({ row := rowf, table := w.table }, data')
    | _, _ => (w, data)

/-! ## Merge (flecs_table_data_merge) -/

/-- flecs_table_data_merge_column: when dst is empty take over the src
vector; otherwise grow dst by src's count (constructing), then move the
src elements into the new slots through move_dtor (memcpy when absent). -/
def flecs_table_data_merge_column (dst src : Column) (column_size : Nat) :
    Column :=
  let dst_count := dst.data.count
  if dst_count == 0 then
    { dst with data := src.data }
  else
    let src_count := src.data.count
    let grown := (flecs_table_data_column_append dst src_count column_size true).1
    let moved := src.data.data.map (moveDtorD dst.ti)
    { dst with data := { grown.data with
        data := grown.data.data.take dst_count ++ moved } }

/-- A dst-only column during merge: reserve column_size, set the count to
src_count + dst_count and construct the newly added range. -/
def flecs_table_merge_grow_column (src_count dst_count column_size : Nat)
    (d : Column) : Column :=
  let v := d.data.setSize column_size
  let extended := v.data ++ List.replicate (src_count + dst_count - v.data.length) 0
  let filled :=
    match d.ti.ctor with
    | some cv => listFillRange extended dst_count src_count cv
    | none => extended
  { d with data := { v with data := filled } }

/-- Column walk of flecs_table_data_merge_columns: matching ids merge and
record a dirty mark at the column slot; a dst-only column grows and
constructs; a src-only column is destructed and finalized. Returns the new
dst columns and the dirty-state indices marked for matched columns. -/
def flecs_table_data_merge_columns_walk (src_count dst_count column_size : Nat) :
    Nat → List Column → List Column → List Column × List Nat
  | i_new, d :: ds, s :: ss =>
    if d.id = s.id then
      let rest := flecs_table_data_merge_columns_walk src_count dst_count column_size
        (i_new + 1) ds ss
      (flecs_table_data_merge_column d s column_size :: rest.1, (i_new + 1) :: rest.2)
    else if d.id < s.id then
      let rest := flecs_table_data_merge_columns_walk src_count dst_count column_size
        (i_new + 1) ds (s :: ss)
      (flecs_table_merge_grow_column src_count dst_count column_size d :: rest.1, rest.2)
    else
      flecs_table_data_merge_columns_walk src_count dst_count column_size i_new (d :: ds) ss
  | _, ds, [] =>
    (ds.map (flecs_table_merge_grow_column src_count dst_count column_size), [])
  | _, [], _ => ([], [])
termination_by _ l r => (l.length, r.length)

/-- flecs_table_data_merge_columns: nothing to do when src is empty;
otherwise concatenate the entities and records vectors onto dst (emptying
src), merge the columns by the two-pointer walk, move and clear the bitset
columns, and mark the dirty state of every matched column and of the
entity vector. -/
def flecs_table_data_merge_columns (dst src : TableData)
    (src_count dst_count : Nat) : TableData × TableData :=
  if src_count == 0 then (dst, src)
  else
    let entNeed := dst.entities.count + src.entities.count
    let dstEnt := if dst.entities.cap < entNeed then dst.entities.setSize entNeed
      else dst.entities
    let dstEnt := { dstEnt with data := dstEnt.data ++ src.entities.data }
    let recNeed := dst.records.count + src.records.count
    let dstRec := if dst.records.cap < recNeed then dst.records.setSize recNeed
      else dst.records
    let dstRec := { dstRec with data := dstRec.data ++ src.records.data }
    let column_size := dstEnt.cap
    let cols := flecs_table_data_merge_columns_walk src_count dst_count column_size 0
      dst.columns src.columns
    let bs := flecs_table_data_move_bitset_columns dst_count 0 src_count true
      dst.bitsets src.bitsets
    let dirty := cols.2.foldl flecs_table_data_mark_table_dirty dst.dirty_state
    let dirty := flecs_table_data_mark_table_dirty dirty 0
    let dst' : TableData :=
      { dst with
        entities := dstEnt
        records := dstRec
        columns := cols.1
        bitsets := bs.1
        dirty_state := dirty }
    let src' : TableData :=
      { src with
        entities := { src.entities with data := [], cap := 0 }
        records := { src.records with data := [], cap := 0 }
        columns := src.columns.map (fun c => { c with data := ⟨[], 0⟩ })
        bitsets := bs.2 }
    (dst', src')

/-- Entity-index patch loop of flecs_table_data_merge (lines 2513-2526,
dst table distinct from src table so the stored record pointers are
reused): for src row i, set the record's row field to dst_count + i
preserving the flag bits and point its table at the dst table. -/
def flecs_record_patch_loop (dstId dst_count : Nat) :
    List (Option Nat) → Nat → EntityIndex → EntityIndex
  | [], _, w => w
  | r :: rs, i, w =>
    let w :=
      match r with
      | some p =>
        { row := Function.update w.row p
            (ecsRowToRecord (dst_count + i) (ecsRecordToRowFlags (w.row p))),
          table := Function.update w.table p dstId }
      | none => w
    flecs_record_patch_loop dstId dst_count rs (i + 1) w

/-- flecs_table_data_merge for two distinct tables: patch every src
record in the entity index, then merge the storage (the move_data branch
is dead code, its guard is never set). -/
def flecs_table_data_merge (w : EntityIndex) (dstId : Nat)
    (dst src : TableData) : EntityIndex × TableData × TableData :=
  let src_count := src.entities.count
  let dst_count := dst.entities.count
  let w := flecs_record_patch_loop dstId dst_count src.records.data 0 w
  let r := flecs_table_data_merge_columns dst src src_count dst_count
  (w, r.1, r.2)

/-! ## Dirty state (flecs_table_get_dirty_state, flecs_table_mark_dirty) -/

/-- flecs_table_get_dirty_state: lazily allocate the dirty-state array of
length column_count + 1 with every slot set to 1; later calls return the
stored array unchanged. -/
def flecs_table_get_dirty_state (data : TableData) : TableData × List Nat :=
  match data.dirty_state with
  | none =>
    let ds := List.replicate (data.columns.length + 1) 1
    ({ data with dirty_state := some ds }, ds)
  | some ds => (data, ds)

/-- The table record resolved for a component id: its column slot (-1 for
a non-data id). -/
structure TableRecordM where
  column : Int

/-- flecs_table_mark_dirty: when the dirty state exists, look up the
component's id record and this table's record in it; bail out when either
is missing or the record carries no column; otherwise increment the dirty
counter of that column. The lookup parameter returns Option.none when the
id record is absent, some Option.none when the id record has no table
record for this table. -/
def flecs_table_mark_dirty (idrLookup : Nat → Option (Option TableRecordM))
    (data : TableData) (component : Nat) : TableData :=
  match data.dirty_state with
  | none => data
  | some _ =>
    match idrLookup component with
    | none => data
    | some Option.none => data
    | some (some tr) =>
      if tr.column == -1 then data
      else
        { data with dirty_state :=
            flecs_table_data_mark_table_dirty data.dirty_state (tr.column.toNat + 1) }

/-! ## Table initialization: record building and pre-sizing (table.c
flecs_table_init, lines 234-509)

Ids are 64-bit values; the top four bits are role flags
(PAIR = 1<<63, OVERRIDE = 1<<62, TOGGLE = 1<<61). A pair encodes its
relationship in bits 32-59 and its target in bits 0-31. Builtin entity
ids are named constants; only their distinctness matters here. -/

/-- ECS_ID_FLAGS_MASK: the top four bits of a 64-bit id. -/
def ECS_ID_FLAGS_MASK : Nat := (2 ^ 4 - 1) <<< 60

/-- ECS_COMPONENT_MASK: an id with its role flags stripped (64-bit). -/
def ECS_COMPONENT_MASK : Nat := 2 ^ 60 - 1

/-- ECS_PAIR role flag. -/
def ECS_PAIR : Nat := 2 ^ 63

/-- ECS_TOGGLE role flag. -/
def ECS_TOGGLE : Nat := 2 ^ 61

/-- ECS_OVERRIDE role flag. -/
def ECS_OVERRIDE : Nat := 2 ^ 62

/-- ECS_IS_PAIR: the id's role flags are exactly PAIR. -/
def ecsIsPair (id : Nat) : Bool := (id &&& ECS_ID_FLAGS_MASK) == ECS_PAIR

/-- ECS_HAS_ID_FLAG(id, PAIR). -/
def ecsHasPairFlag (id : Nat) : Bool := (id &&& ECS_PAIR) != 0

/-- ECS_PAIR_FIRST: relationship part of a pair id. -/
def ecsPairFirst (id : Nat) : Nat := (id &&& ECS_COMPONENT_MASK) >>> 32

/-- ECS_PAIR_SECOND: target part of a pair id (low 32 bits). -/
def ecsPairSecond (id : Nat) : Nat := id &&& (2 ^ 32 - 1)

/-- ecs_pair(first, second). -/
def ecsPair (first second : Nat) : Nat := ECS_PAIR ||| (first <<< 32) ||| second

/-- Builtin entity ids (distinct small constants; the exact values are
immaterial to the record-count model). -/
def EcsWildcard : Nat := 266

/-- Builtin EcsAny entity id. -/
def EcsAny : Nat := 267

/-- Builtin EcsChildOf entity id. -/
def EcsChildOf : Nat := 268

/-- Builtin EcsFlag entity id. -/
def EcsFlag : Nat := 269

/-- Result of the boundary scan of flecs_table_init (lines 276-287): the
last regular (plain) id index, the first pair index and the first
non-pair role index, each -1 when absent. -/
structure InitScan where
  last_id : Int
  first_pair : Int
  first_role : Int
deriving Repr, DecidableEq

/-- One step of the boundary scan: record the first pair, the last plain
id, and the first role-flagged non-pair id. -/
def initScanStep (acc : InitScan × Int) (id : Nat) : InitScan × Int :=
  let s := acc.1
  let i := acc.2
  let s := if s.first_pair == -1 ∧ ecsIsPair id then { s with first_pair := i } else s
  let s :=
    if (id &&& ECS_COMPONENT_MASK) == id then { s with last_id := i }
    else if s.first_role == -1 ∧ ¬ ecsIsPair id then { s with first_role := i }
    else s
  (s, i + 1)

/-- The boundary scan of flecs_table_init over the table type. -/
def flecs_table_init_scan (ids : List Nat) : InitScan :=
  (ids.foldl initScanStep (⟨-1, -1, -1⟩, 0)).1

/-- The pre-sizing request of flecs_table_init (lines 328-343): when the
type has a role or pair id, compute start from first_role, replace it by
first_pair under the source's condition
first_pair != -1 and (start != -1 or first_pair < start),
and request a minimum capacity of start + 3*(count - start) + 3 + 1.
Returns Option.none when no reservation is made. -/
def flecs_table_init_reserve (ids : List Nat) : Option Int :=
  let s := flecs_table_init_scan ids
  if s.first_role != -1 ∨ s.first_pair != -1 then
    let start := s.first_role
    let start :=
      if s.first_pair != -1 ∧ (start != -1 ∨ s.first_pair < start) then s.first_pair
      else start
    let flag_id_count : Int := (ids.length : Int) - start
    some (start + 3 * flag_id_count + 3 + 1)
  else none

/-- The bound stated by the specification: start is the type index of the
first role- or pair-id (the first id carrying any role flag) and the
records total is bounded by start + 3*(count - start) + 3 + 1. -/
def spec_records_bound (ids : List Nat) : Nat :=
  let start := (ids.takeWhile (fun id => (id &&& ECS_COMPONENT_MASK) == id)).length
  start + 3 * (ids.length - start) + 3 + 1

/-- State of the record build: keys of the records appended so far (in
order) and the subset of keys registered in id-record caches through
flecs_table_append_to_records (used for its duplicate check). -/
structure RecBuild where
  recs : List Nat
  cacheKeys : List Nat
deriving Repr, DecidableEq

/-- flecs_table_append_to_records: when the id's cache already holds a
record for this table only its count is bumped; otherwise a new record is
appended and registered. -/
def flecs_table_append_to_records (b : RecBuild) (key : Nat) : RecBuild :=
  if b.cacheKeys.contains key then b
  else { recs := b.recs ++ [key], cacheKeys := b.cacheKeys ++ [key] }

/-- Flag-record step (lines 345-368): for a role-flagged non-pair id,
register (Flag, first) and, for an id carrying the PAIR bit among other
role bits, (Flag, second). -/
def initFlagRecordsStep (b : RecBuild) (id : Nat) : RecBuild :=
  if ¬ ecsIsPair id then
    let first := if ecsHasPairFlag id then ecsPairFirst id else id &&& ECS_COMPONENT_MASK
    let second := if ecsHasPairFlag id then ecsPairSecond id else 0
    let b := if first ≠ 0 then flecs_table_append_to_records b (ecsPair EcsFlag first) else b
    if second ≠ 0 then flecs_table_append_to_records b (ecsPair EcsFlag second) else b
  else b

/-- (R, *) records (lines 373-400): one appended record per run of pairs
sharing a relationship (appended directly to the vector, not through the
cache check). -/
def initPairWildcardRecords (pairs : List Nat) : List Nat :=
  (pairs.foldl
    (fun (acc : List Nat × Nat) id =>
      if acc.2 ≠ ecsPairFirst id then
        (acc.1 ++ [ecsPair (ecsPairFirst id) EcsWildcard], ecsPairFirst id)
      else acc)
    ([], 0)).1

/-- The full record build of flecs_table_init with no ancestor table: one
record per type id, then (after the pre-size request) the flag records,
the (R, *) records, the (*, Target) records, and the trailing wildcard
(*), (*, *), any (_) and (ChildOf, 0) records. Returns the list of
id-record keys of all appended records, in order. -/
def flecs_table_init_records (ids : List Nat) : List Nat :=
  let s := flecs_table_init_scan ids
  let base : RecBuild := { recs := ids, cacheKeys := [] }
  let roleStart := if s.first_role == -1 then ids.length else s.first_role.toNat
  let b := (ids.drop roleStart).foldl initFlagRecordsStep base
  let pairStart := if s.first_pair == -1 then ids.length else s.first_pair.toNat
  let pairs := (ids.drop pairStart).takeWhile ecsIsPair
  let b := { b with recs := b.recs ++ initPairWildcardRecords pairs }
  let b := pairs.foldl
    (fun b id => flecs_table_append_to_records b (ecsPair EcsWildcard (ecsPairSecond id))) b
  let b := if s.last_id ≥ 0 then { b with recs := b.recs ++ [EcsWildcard] } else b
  let b := if pairs.length ≠ 0 then { b with recs := b.recs ++ [ecsPair EcsWildcard EcsWildcard] } else b
  let b := if ids.length ≠ 0 then { b with recs := b.recs ++ [EcsAny] } else b
  let has_childof := ids.any (fun id => ecsIsPair id ∧ ecsPairFirst id == EcsChildOf)
  let b := if ids.length ≠ 0 ∧ ¬ has_childof then
      { b with recs := b.recs ++ [ecsPair EcsChildOf 0] } else b
  b.recs

/-- Capacity of the cached records vector after n ecs_vec_append calls
starting from an empty vector (each append rounds the capacity to the
next power of two of count + 1 when full, minimum 2). -/
def recordsVecCapAfterAppends (n : Nat) : Nat :=
  ((List.range n).foldl
    (fun (v : Nat × Nat) _ =>
      if v.2 = v.1 then (v.1 + 1, max 2 (flecs_next_pow_of_2 (v.1 + 1)))
      else (v.1 + 1, v.2))
    (0, 0)).2

/-- Capacity of the records vector right after the pre-size request of
flecs_table_init: the capacity grown by the per-id appends, then raised by
ecs_vec_set_min_size to the next power of two of the requested minimum
when it is below it. -/
def flecs_table_init_cap_after_reserve (ids : List Nat) : Nat :=
  let cap := recordsVecCapAfterAppends ids.length
  match flecs_table_init_reserve ids with
  | some req =>
    if cap < req.toNat then max 2 (flecs_next_pow_of_2 (max req.toNat ids.length))
    else cap
  | none => cap

/-! ## Claim theorems -/

/-- A type with one plain id, one TOGGLE-flagged id and one pair: the
first role id (index 1) precedes the first pair (index 2). -/
def c6_small_type : List Nat := [5, ECS_TOGGLE ||| 11, ecsPair 1000 2000]

/-- A type with one plain id, thirteen distinct TOGGLE-flagged ids and one
pair: the build appends 34 records while the miscomputed reservation
leaves a capacity of 32. -/
def c6_realloc_type : List Nat :=
  [5] ++ (List.range 13).map (fun j => ECS_TOGGLE ||| (10 + j)) ++ [ecsPair 1000 2000]

/-- C4: for every append on a table, the empty-to-nonempty signal
(flecs_table_set_empty) is issued if and only if the table held zero
entities before the append, equivalently iff the returned row is 0;
appending to a non-empty table never signals. (The lock is asserted zero
by the C wrapper and is outside this storage model.) -/
theorem c4_append_signals_iff_was_empty (data : TableData) (entity : Nat)
    (record : Option Nat) (construct on_add : Bool) :
    ((flecs_table_append data entity record construct on_add).2.2 = true ↔
      data.entities.count = 0) ∧
    (flecs_table_append data entity record construct on_add).2.1 =
      data.entities.count := by
  unfold flecs_table_append flecs_table_data_append
  by_cases hc : data.isComplex <;> simp [hc]

/-- C6: the pre-sizing of the table records vector is miscomputed. The
source condition on line 330 reads start != -1 where the upper-bound
formula needs start == -1, so for a type holding a non-pair role id before
its first pair the code requests a minimum capacity strictly below the
specified bound start + 3*(count - start) + 3 + 1; with enough role ids
the records appended after the reservation outgrow even the power-of-two
rounded capacity, so the vector reallocs while earlier flag records are
already registered in id-record caches. -/
theorem c6_records_presize_bug :
    (flecs_table_init_reserve c6_small_type).getD 0 <
      (spec_records_bound c6_small_type : Int) ∧
    flecs_table_init_cap_after_reserve c6_realloc_type <
      (flecs_table_init_records c6_realloc_type).length := by
  constructor
  · set_option maxRecDepth 100000 in decide
  · set_option maxRecDepth 100000 in decide

/-- C9: the first call to get_dirty_state allocates a dirty-state array of
length column_count + 1 with every slot set to 1; a second call returns
the same array and leaves the state untouched. -/
theorem c9_get_dirty_state_lazy_init (data : TableData)
    (h : data.dirty_state = Option.none) :
    (flecs_table_get_dirty_state data).2 =
      List.replicate (data.columns.length + 1) 1 ∧
    (∀ i, i < data.columns.length + 1 →
      (flecs_table_get_dirty_state data).2.getD i 0 = 1) ∧
    (flecs_table_get_dirty_state data).1.dirty_state =
      some (flecs_table_get_dirty_state data).2 ∧
    flecs_table_get_dirty_state (flecs_table_get_dirty_state data).1 =
      ((flecs_table_get_dirty_state data).1,
        (flecs_table_get_dirty_state data).2) := by
  have h1 : flecs_table_get_dirty_state data =
      ({ data with dirty_state := some (List.replicate (data.columns.length + 1) 1) },
        List.replicate (data.columns.length + 1) 1) := by
    simp [flecs_table_get_dirty_state, h]
  rw [h1]
  refine ⟨rfl, ?_, ?_⟩
  · intro i hi
    rw [List.getD_eq_getElem _ _ (by simpa using hi)]
    simp
  · constructor
    · rfl
    · simp [flecs_table_get_dirty_state]

/-- C10: mark_dirty leaves the table untouched when the dirty-state array
was never allocated, and likewise when the component has no id record, no
table record in this table, or a table record with column -1. -/
theorem c10_mark_dirty_noop (lk : Nat → Option (Option TableRecordM))
    (data : TableData) (component : Nat)
    (h : data.dirty_state = Option.none ∨ lk component = Option.none ∨
      lk component = some Option.none ∨
      (∃ tr, lk component = some (some tr) ∧ tr.column = -1)) :
    flecs_table_mark_dirty lk data component = data := by
  unfold flecs_table_mark_dirty
  rcases h with h | h | h | ⟨tr, h, hcol⟩
  · simp [h]
  · cases hd : data.dirty_state <;> simp [h]
  · cases hd : data.dirty_state <;> simp [h]
  · cases hd : data.dirty_state <;> simp [h, hcol]

/-- C1: hook priority of the matched-column transfer in
flecs_table_data_move. With same_entity deciding dst_entity = src_entity
and use_move_dtor deciding src_row = src_count - 1: a same-entity move not
at the last row uses move_ctor, falling back to ctor_move_dtor when
move_ctor is absent; a same-entity move at the last row uses
ctor_move_dtor; a
cross-entity clone uses copy_ctor; an absent selected hook degrades to a
plain byte copy of the source element. -/
theorem c1_move_matched_hook_priority (dst_entity src_entity src_count
    src_index : Nat) (ti : Hooks) (srcVal : Nat) :
    (dst_entity = src_entity → src_count ≠ src_index + 1 →
      flecs_move_matched_value (flecs_move_same_entity dst_entity src_entity)
          (flecs_move_use_move_dtor src_count src_index) ti srcVal =
        (match ti.move_ctor, ti.ctor_move_dtor with
          | some f, _ => f srcVal
          | Option.none, some g => g srcVal
          | Option.none, Option.none => srcVal)) ∧
    (dst_entity = src_entity → src_count = src_index + 1 →
      flecs_move_matched_value (flecs_move_same_entity dst_entity src_entity)
          (flecs_move_use_move_dtor src_count src_index) ti srcVal =
        (match ti.ctor_move_dtor with
          | some g => g srcVal
          | Option.none => srcVal)) ∧
    (dst_entity ≠ src_entity →
      flecs_move_matched_value (flecs_move_same_entity dst_entity src_entity)
          (flecs_move_use_move_dtor src_count src_index) ti srcVal =
        (match ti.copy_ctor with
          | some f => f srcVal
          | Option.none => srcVal)) := by
  unfold flecs_move_matched_value flecs_move_same_entity flecs_move_use_move_dtor
  refine ⟨?_, ?_, ?_⟩
  · intro he hlast
    cases hmc : ti.move_ctor <;> cases hcmd : ti.ctor_move_dtor <;>
      simp [he, Nat.ne_of_beq_eq_false, hlast, hmc, hcmd, beq_iff_eq]
  · intro he hlast
    cases hcmd : ti.ctor_move_dtor <;> simp [he, hlast, hcmd, beq_iff_eq]
  · intro he
    cases hcc : ti.copy_ctor <;> simp [he, hcc, beq_iff_eq]

/-- Hooks with all three transfer hooks registered, each shifting the
value by a different amount so the selected hook is observable. -/
def c1_hooks : Hooks :=
  { Hooks.none with
    move_ctor := some (fun v => v + 1)
    ctor_move_dtor := some (fun v => v + 2)
    copy_ctor := some (fun v => v + 3) }

/-- C1 witness: the three hook-priority cases instantiated on concrete
entities, rows and hooks. -/
theorem c1_move_matched_hook_priority_witness :
    flecs_move_matched_value (flecs_move_same_entity 7 7)
        (flecs_move_use_move_dtor 5 2) c1_hooks 10 = 11 ∧
    flecs_move_matched_value (flecs_move_same_entity 7 7)
        (flecs_move_use_move_dtor 5 4) c1_hooks 10 = 12 ∧
    flecs_move_matched_value (flecs_move_same_entity 7 8)
        (flecs_move_use_move_dtor 5 2) c1_hooks 10 = 13 := by
  refine ⟨?_, ?_, ?_⟩
  · exact ((c1_move_matched_hook_priority 7 7 5 2 c1_hooks 10).1 rfl
      (by decide)).trans rfl
  · exact ((c1_move_matched_hook_priority 7 7 5 4 c1_hooks 10).2.1 rfl rfl).trans rfl
  · exact ((c1_move_matched_hook_priority 7 8 5 2 c1_hooks 10).2.2
      (by decide)).trans rfl

/-- An empty table with one column and no dirty state. -/
def sampleTable1 : TableData :=
  { entities := ⟨[], 0⟩, records := ⟨[], 0⟩,
    columns := [{ id := 1, data := ⟨[], 0⟩, ti := Hooks.none }],
    bitsets := [], dirty_state := Option.none,
    isComplex := false, hasDtors := false, hasMove := false }

/-- C9 witness: the first get_dirty_state call on a one-column table
yields the array [1, 1] and stores it. -/
theorem c9_get_dirty_state_lazy_init_witness :
    (flecs_table_get_dirty_state sampleTable1).2 = [1, 1] ∧
    (flecs_table_get_dirty_state sampleTable1).1.dirty_state = some [1, 1] := by
  have h := c9_get_dirty_state_lazy_init sampleTable1 rfl
  exact ⟨h.1.trans rfl, by rw [h.2.2.1, h.1]; rfl⟩

/-- C10 witness: mark_dirty with no dirty state and no id record leaves a
concrete table unchanged. -/
theorem c10_mark_dirty_noop_witness :
    flecs_table_mark_dirty (fun _ => Option.none) sampleTable1 42 =
      sampleTable1 :=
  c10_mark_dirty_noop (fun _ => Option.none) sampleTable1 42 (Or.inl rfl)

/-- A two-row table with dirty state [5] and non-null records. -/
def c8_state : TableData :=
  { entities := ⟨[1, 2], 2⟩, records := ⟨[some 1, some 2], 2⟩,
    columns := [], bitsets := [], dirty_state := some [5],
    isComplex := false, hasDtors := false, hasMove := false }

/-- An entity index where record p sits at row p - 1. -/
def c8_world : EntityIndex := { row := fun p => p - 1, table := fun _ => 0 }

/-- C8 counterexample: swapping a row with itself returns before marking
the dirty state, leaving dirty_state[0] at 5 where the claim demands an
increment to 6. -/
theorem c8_swap_equal_rows_counterexample :
    (flecs_table_data_swap c8_world c8_state 0 0).2.dirty_state = some [5] ∧
    ¬ (flecs_table_data_swap c8_world c8_state 0 0).2.dirty_state = some [6] := by
  have base : (flecs_table_data_swap c8_world c8_state 0 0).2.dirty_state = some [5] := rfl
  refine ⟨base, ?_⟩
  rw [base]
  simp

/-- C8 amended: swapping two distinct rows of a table with an allocated
dirty-state array increments dirty_state[0]; equal rows leave all state,
dirty counters included, untouched (see the counterexample). -/
theorem c8_swap_marks_dirty (w : EntityIndex) (data : TableData)
    (r1 r2 : Nat) (ds : List Nat) (p1 p2 : Nat)
    (hne : r1 ≠ r2) (hd : data.dirty_state = some ds)
    (h1 : data.records.data.getD r1 Option.none = some p1)
    (h2 : data.records.data.getD r2 Option.none = some p2) :
    (flecs_table_data_swap w data r1 r2).2.dirty_state =
      some (ds.set 0 (ds.getD 0 0 + 1)) := by
  unfold flecs_table_data_swap
  rw [if_neg (by simpa using hne), h1, h2]
  simp [hd, flecs_table_data_mark_table_dirty]

/-- C8 witness: swapping rows 0 and 1 of the concrete table bumps
dirty_state[0] from 5 to 6. -/
theorem c8_swap_marks_dirty_witness :
    (flecs_table_data_swap c8_world c8_state 0 1).2.dirty_state = some [6] := by
  have h := c8_swap_marks_dirty c8_world c8_state 0 1 [5] 1 2
    (by decide) rfl rfl rfl
  simpa using h

/-- C2: deleting a row strictly before the last row moves the last entity
id and last record pointer into the deleted slot, shrinks both vectors by
one, and patches the moved record's row field to the deleted index while
preserving its flag bits. -/
theorem c2_delete_moves_last_into_row (w : EntityIndex) (data : TableData)
    (index : Nat) (destruct : Bool)
    (hlen : data.records.count = data.entities.count)
    (hidx : index + 1 < data.entities.count)
    (hrow : index < 2 ^ 28) :
    ((flecs_table_data_delete w data index destruct).2.1.entities.count =
      data.entities.count - 1) ∧
    ((flecs_table_data_delete w data index destruct).2.1.records.count =
      data.entities.count - 1) ∧
    ((flecs_table_data_delete w data index destruct).2.1.entities.data.getD index 0 =
      data.entities.data.getD (data.entities.count - 1) 0) ∧
    ((flecs_table_data_delete w data index destruct).2.1.records.data.getD index
        Option.none =
      data.records.data.getD (data.entities.count - 1) Option.none) ∧
    (∀ p, data.records.data.getD (data.entities.count - 1) Option.none = some p →
      ecsRecordToRow ((flecs_table_data_delete w data index destruct).1.row p) =
        index ∧
      ecsRecordToRowFlags ((flecs_table_data_delete w data index destruct).1.row p) =
        ecsRecordToRowFlags (w.row p)) := by
  have hne : index ≠ data.entities.count - 1 := by omega
  have hent : (flecs_table_data_delete w data index destruct).2.1.entities =
      { data.entities with
        data := (data.entities.data.set index
          (data.entities.data.getD (data.entities.count - 1) 0)).dropLast } := rfl
  have hrec : (flecs_table_data_delete w data index destruct).2.1.records =
      { data.records with
        data := (data.records.data.set index
          (data.records.data.getD (data.entities.count - 1) Option.none)).dropLast } := rfl
  have hw : (flecs_table_data_delete w data index destruct).1 =
      (if index ≠ data.entities.count - 1 then
        match data.records.data.getD (data.entities.count - 1) Option.none with
        | some p =>
          { w with row := Function.update w.row p (ecsRowToRecord index (ecsRecordToRowFlags (w.row p))) }
        | Option.none => w
      else w) := rfl
  refine ⟨?_, ?_, ?_, ?_, ?_⟩
  · rw [hent]
    simp only [Vec.count, List.length_dropLast, List.length_set]
  · rw [hrec]
    simp only [Vec.count, List.length_dropLast, List.length_set]
    simp only [Vec.count] at hlen
    omega
  · rw [hent]
    have hlt : index < ((data.entities.data.set index
        (data.entities.data.getD (data.entities.count - 1) 0)).dropLast).length := by
      simp only [List.length_dropLast, List.length_set]
      simp only [Vec.count] at hidx
      omega
    rw [List.getD_eq_getElem _ _ hlt, List.getElem_dropLast, List.getElem_set_self]
  · rw [hrec]
    have hlt : index < ((data.records.data.set index
        (data.records.data.getD (data.entities.count - 1) Option.none)).dropLast).length := by
      simp only [List.length_dropLast, List.length_set]
      simp only [Vec.count] at hlen hidx
      omega
    rw [List.getD_eq_getElem _ _ hlt, List.getElem_dropLast, List.getElem_set_self]
  · intro p hp
    rw [hw, if_pos hne, hp]
    simp only [Function.update_same]
    exact ⟨ecsRecordToRow_pack hrow, ecsRecordToRowFlags_pack hrow⟩

/-- Three-row table with dtor-free hooks used by the delete witness. -/
def c2_state : TableData :=
  { entities := ⟨[10, 20, 30], 4⟩, records := ⟨[some 1, some 2, some 3], 4⟩,
    columns := [], bitsets := [], dirty_state := Option.none,
    isComplex := false, hasDtors := false, hasMove := false }

/-- C2 witness: deleting row 0 of the three-row table moves entity 30 and
record 3 into slot 0 and patches record 3's row field to 0. -/
theorem c2_delete_moves_last_into_row_witness :
    ((flecs_table_data_delete c8_world c2_state 0 true).2.1.entities.count = 2) ∧
    ((flecs_table_data_delete c8_world c2_state 0 true).2.1.entities.data.getD 0 0 = 30) ∧
    (ecsRecordToRow ((flecs_table_data_delete c8_world c2_state 0 true).1.row 3) = 0) := by
  have h := c2_delete_moves_last_into_row c8_world c2_state 0 true rfl
    (by decide) (by decide)
  refine ⟨h.1.trans (by decide), ?_, ?_⟩
  · exact h.2.2.1.trans (by decide)
  · exact (h.2.2.2.2 3 rfl).1

/-! ## Helper lemmas for appendn (claim C5) -/

theorem Vec.data_setSize {α : Type} (v : Vec α) (n : Nat) :
    (v.setSize n).data = v.data := by
  unfold Vec.setSize
  split <;> rfl

theorem mapColumnsEv_fst_getD (f : Nat → Column → Column × List HookEv)
    (d : Column) :
    ∀ (cs : List Column) (i0 i : Nat), i < cs.length →
      (mapColumnsEv f i0 cs).1.getD i d = (f (i0 + i) (cs.getD i d)).1 := by
  intro cs
  induction cs with
  | nil => intro i0 i h; simp at h
  | cons c cs ih =>
    intro i0 i h
    cases i with
    | zero => simp [mapColumnsEv]
    | succ i =>
      simp only [mapColumnsEv, List.getD_cons_succ]
      rw [ih (i0 + 1) i (by simpa using h)]
      have : i0 + 1 + i = i0 + (i + 1) := by omega
      rw [this]

theorem mapColumnsEv_snd_fst_ge (f : Nat → Column → Column × List HookEv) :
    ∀ (cs : List Column) (i0 : Nat) (q : Nat × HookEv),
      q ∈ (mapColumnsEv f i0 cs).2 → i0 ≤ q.1 := by
  intro cs
  induction cs with
  | nil => intro i0 q h; simp [mapColumnsEv] at h
  | cons c cs ih =>
    intro i0 q h
    simp only [mapColumnsEv, List.mem_append] at h
    rcases h with h | h
    · rcases List.mem_map.mp h with ⟨e, _, he⟩
      simp [← he]
    · exact Nat.le_of_succ_le (ih (i0 + 1) q h)

theorem mapColumnsEv_mem_snd (f : Nat → Column → Column × List HookEv)
    (d : Column) :
    ∀ (cs : List Column) (i0 i : Nat) (e : HookEv), i < cs.length →
      (((i0 + i, e) ∈ (mapColumnsEv f i0 cs).2) ↔
        e ∈ (f (i0 + i) (cs.getD i d)).2) := by
  intro cs
  induction cs with
  | nil => intro i0 i e h; simp at h
  | cons c cs ih =>
    intro i0 i e h
    cases i with
    | zero =>
      simp only [mapColumnsEv, List.mem_append, Nat.add_zero, List.getD_cons_zero]
      constructor
      · intro hm
        rcases hm with hm | hm
        · rcases List.mem_map.mp hm with ⟨e', he', heq⟩
          cases heq
          exact he'
        · exact absurd (mapColumnsEv_snd_fst_ge f cs (i0 + 1) _ hm) (by omega)
      · intro hm
        exact Or.inl (List.mem_map.mpr ⟨e, hm, rfl⟩)
    | succ i =>
      simp only [mapColumnsEv, List.mem_append, List.getD_cons_succ]
      have harith : i0 + (i + 1) = i0 + 1 + i := by omega
      constructor
      · intro hm
        rcases hm with hm | hm
        · rcases List.mem_map.mp hm with ⟨e', _, heq⟩
          have hfst := congrArg Prod.fst heq
          simp at hfst
        · rw [harith] at hm
          rw [harith]
          exact (ih (i0 + 1) i e (by simpa using h)).mp hm
      · intro hm
        refine Or.inr ?_
        rw [harith] at hm ⊢
        exact (ih (i0 + 1) i e (by simpa using h)).mpr hm

theorem flecs_column_grow_vec_data (v : Vec Nat) (to_add dst_size : Nat)
    (b : Bool) : (flecs_column_grow_vec v to_add dst_size b).data = v.data := by
  unfold flecs_column_grow_vec
  cases b <;> simp only [if_true, if_false, Bool.false_eq_true, ite_false, ite_true] <;>
    split <;> simp [Vec.data_setSize]

theorem column_append_construct_new_slots (c : Column) (to_add dst_size : Nat) :
    ((flecs_table_data_column_append c to_add dst_size true).1).data.data.drop
        c.data.count =
      List.replicate to_add (ctorValD c.ti) := by
  unfold flecs_table_data_column_append
  by_cases h : 0 < c.data.count ∧ (dst_size != c.data.cap) = true ∧
      c.ti.ctor_move_dtor.isSome = true
  · rw [if_pos h]
    simp only [eq_self_iff_true, if_true]
    have hlen : c.data.count = (c.data.data.map (c.ti.ctor_move_dtor.getD id)).length := by
      simp [Vec.count]
    rw [hlen, List.drop_left]
  · simp only [if_neg h, flecs_column_grow_vec_data]
    have hcnt : c.data.count = c.data.data.length := rfl
    rw [hcnt, List.drop_left]
    cases hc : c.ti.ctor <;> simp [ctorValD, hc]

theorem column_append_ti (c : Column) (to_add dst_size : Nat)
    (construct : Bool) :
    (flecs_table_data_column_append c to_add dst_size construct).1.ti = c.ti := by
  unfold flecs_table_data_column_append
  by_cases h : 0 < c.data.count ∧ (dst_size != c.data.cap) = true ∧
      c.ti.ctor_move_dtor.isSome = true
  · rw [if_pos h]
  · rw [if_neg h]

theorem column_append_no_on_add (c : Column) (to_add dst_size : Nat)
    (construct : Bool) (row cnt : Nat) :
    HookEv.onAddRun row cnt ∉
      (flecs_table_data_column_append c to_add dst_size construct).2 := by
  unfold flecs_table_data_column_append
  by_cases h : 0 < c.data.count ∧ (dst_size != c.data.cap) = true ∧
      c.ti.ctor_move_dtor.isSome = true
  · simp only [if_pos h]
    cases construct <;> simp
  · simp only [if_neg h]
    cases construct <;> cases hc : c.ti.ctor <;> simp [hc]

/-- Hooks with only the on_add callback registered. -/
def c5_hooks : Hooks := { Hooks.none with on_add := true }

/-- Column with an on_add hook and no constructor. -/
def c5_column : Column := { id := 1, data := ⟨[], 0⟩, ti := c5_hooks }

/-- Empty complex table with the one on_add column. -/
def c5_state : TableData :=
  { entities := ⟨[], 0⟩, records := ⟨[], 0⟩, columns := [c5_column],
    bitsets := [], dirty_state := Option.none,
    isComplex := true, hasDtors := false, hasMove := false }

/-- C5 counterexample: flecs_table_data_appendn passes on_add=false only
as the construct argument of flecs_table_data_invoke_add_hooks; that
helper still fires the on_add callback whenever it is registered, so
appending one row to a table whose column has an on_add hook emits the
on_add event from this entry point, contradicting the claim that on_add is
not invoked here. -/
theorem c5_appendn_on_add_counterexample :
    (0, HookEv.onAddRun 0 1) ∈
      (flecs_table_data_appendn c5_state 1 Option.none).2.2 := by
  decide

/-- C5 amended: appendn constructs every newly added column slot (the
construct argument is true for every column, so the new slots hold the
constructed value), and the on_add hook IS invoked from this entry point
for every column that registers one (through
flecs_table_data_invoke_add_hooks called with construct=false, so the
constructor does not run twice). -/
theorem c5_appendn_constructs_and_fires_on_add (data : TableData)
    (to_add : Nat) (ids : Option (List Nat)) (i : Nat) (d : Column)
    (hi : i < data.columns.length) :
    (((flecs_table_data_appendn data to_add ids).1.columns.getD i d).data.data.drop
        ((data.columns.getD i d).data.count) =
      List.replicate to_add (ctorValD (data.columns.getD i d).ti)) ∧
    (((i, HookEv.onAddRun data.entities.count to_add) ∈
        (flecs_table_data_appendn data to_add ids).2.2) ↔
      (data.columns.getD i d).ti.on_add = true) := by
  have hchar : ∃ sz,
      (flecs_table_data_appendn data to_add ids).1.columns =
        (mapColumnsEv (appendnColumnStep data.entities.count to_add sz) 0
          data.columns).1 ∧
      (flecs_table_data_appendn data to_add ids).2.2 =
        (mapColumnsEv (appendnColumnStep data.entities.count to_add sz) 0
          data.columns).2 := ⟨_, rfl, rfl⟩
  obtain ⟨sz, hcols, hevs⟩ := hchar
  have hstep : ∀ (j : Nat) (c : Column),
      appendnColumnStep data.entities.count to_add sz j c =
      ((flecs_table_data_column_append c to_add sz true).1,
        (flecs_table_data_column_append c to_add sz true).2 ++
          (if c.ti.on_add then
            [HookEv.onAddRun data.entities.count to_add] else [])) := by
    intro j c
    have hti := column_append_ti c to_add sz true
    simp only [appendnColumnStep, flecs_table_data_invoke_add_hooks,
      Bool.false_eq_true, false_and, if_false, ite_false, List.nil_append, hti]
  constructor
  · rw [hcols, mapColumnsEv_fst_getD _ d data.columns 0 i hi, hstep]
    exact column_append_construct_new_slots (data.columns.getD i d) to_add _
  · rw [hevs]
    rw [show (i, HookEv.onAddRun data.entities.count to_add) =
        ((0 + i : Nat), HookEv.onAddRun data.entities.count to_add) from by
      rw [Nat.zero_add]]
    rw [mapColumnsEv_mem_snd _ d data.columns 0 i _ hi, hstep]
    simp only [Nat.zero_add, List.mem_append]
    constructor
    · intro hm
      rcases hm with hm | hm
      · exact absurd hm (column_append_no_on_add _ _ _ _ _ _)
      · split at hm
        · assumption
        · simp at hm
    · intro ha
      refine Or.inr ?_
      rw [if_pos ha]
      exact List.mem_singleton.mpr rfl

/-- C5 witness (amended claim): appending one row to the concrete on_add
table constructs the slot (uninitialized value 0, no ctor registered) and
fires on_add. -/
theorem c5_appendn_amended_witness :
    (((flecs_table_data_appendn c5_state 1 Option.none).1.columns.getD 0
        c5_column).data.data.drop 0 = [0]) ∧
    ((0, HookEv.onAddRun 0 1) ∈
      (flecs_table_data_appendn c5_state 1 Option.none).2.2) := by
  have h := c5_appendn_constructs_and_fires_on_add c5_state 1 Option.none 0
    c5_column (by decide)
  exact ⟨h.1.trans rfl, h.2.mpr rfl⟩

/-! ## Helper lemmas for merge (claim C3) -/

theorem patch_loop_preserves (dstId dst_count : Nat) :
    ∀ (rs : List (Option Nat)) (i0 : Nat) (w : EntityIndex) (p : Nat),
      (∀ k, k < rs.length → rs.getD k Option.none ≠ some p) →
      (flecs_record_patch_loop dstId dst_count rs i0 w).row p = w.row p ∧
      (flecs_record_patch_loop dstId dst_count rs i0 w).table p = w.table p := by
  intro rs
  induction rs with
  | nil => intro i0 w p _; exact ⟨rfl, rfl⟩
  | cons r rs ih =>
    intro i0 w p h
    have h0 : r ≠ some p := by simpa using h 0 (by simp)
    have hrest : ∀ k, k < rs.length → rs.getD k Option.none ≠ some p := by
      intro k hk
      simpa using h (k + 1) (by simpa using Nat.succ_lt_succ hk)
    cases r with
    | none => exact ih (i0 + 1) w p hrest
    | some q =>
      have hq : q ≠ p := fun he => h0 (by rw [he])
      have hw1 := ih (i0 + 1)
        ({ row := Function.update w.row q
              (ecsRowToRecord (dst_count + i0) (ecsRecordToRowFlags (w.row q))),
           table := Function.update w.table q dstId }) p hrest
      refine ⟨?_, ?_⟩
      · rw [show (flecs_record_patch_loop dstId dst_count (some q :: rs) i0 w) =
          (flecs_record_patch_loop dstId dst_count rs (i0 + 1)
            { row := Function.update w.row q
                (ecsRowToRecord (dst_count + i0) (ecsRecordToRowFlags (w.row q))),
              table := Function.update w.table q dstId }) from rfl]
        rw [hw1.1]
        exact Function.update_noteq (Ne.symm hq) _ _
      · rw [show (flecs_record_patch_loop dstId dst_count (some q :: rs) i0 w) =
          (flecs_record_patch_loop dstId dst_count rs (i0 + 1)
            { row := Function.update w.row q
                (ecsRowToRecord (dst_count + i0) (ecsRecordToRowFlags (w.row q))),
              table := Function.update w.table q dstId }) from rfl]
        rw [hw1.2]
        exact Function.update_noteq (Ne.symm hq) _ _

theorem patch_loop_spec (dstId dst_count : Nat) :
    ∀ (rs : List (Option Nat)) (i0 : Nat) (w : EntityIndex) (j p : Nat),
      j < rs.length → rs.getD j Option.none = some p →
      (∀ k, k < rs.length → k ≠ j → rs.getD k Option.none ≠ some p) →
      (flecs_record_patch_loop dstId dst_count rs i0 w).row p =
        ecsRowToRecord (dst_count + (i0 + j)) (ecsRecordToRowFlags (w.row p)) ∧
      (flecs_record_patch_loop dstId dst_count rs i0 w).table p = dstId := by
  intro rs
  induction rs with
  | nil => intro i0 w j p hj; simp at hj
  | cons r rs ih =>
    intro i0 w j p hj hp huniq
    cases j with
    | zero =>
      have hr : r = some p := by simpa using hp
      subst hr
      have hrest : ∀ k, k < rs.length → rs.getD k Option.none ≠ some p := by
        intro k hk
        simpa using huniq (k + 1) (by simpa using Nat.succ_lt_succ hk) (by omega)
      have hpres := patch_loop_preserves dstId dst_count rs (i0 + 1)
        ({ row := Function.update w.row p
              (ecsRowToRecord (dst_count + i0) (ecsRecordToRowFlags (w.row p))),
           table := Function.update w.table p dstId }) p hrest
      refine ⟨?_, ?_⟩
      · rw [show (flecs_record_patch_loop dstId dst_count (some p :: rs) i0 w) =
          (flecs_record_patch_loop dstId dst_count rs (i0 + 1)
            { row := Function.update w.row p
                (ecsRowToRecord (dst_count + i0) (ecsRecordToRowFlags (w.row p))),
              table := Function.update w.table p dstId }) from rfl]
        rw [hpres.1]
        dsimp only
        rw [Function.update_same, Nat.add_zero]
      · rw [show (flecs_record_patch_loop dstId dst_count (some p :: rs) i0 w) =
          (flecs_record_patch_loop dstId dst_count rs (i0 + 1)
            { row := Function.update w.row p
                (ecsRowToRecord (dst_count + i0) (ecsRecordToRowFlags (w.row p))),
              table := Function.update w.table p dstId }) from rfl]
        rw [hpres.2]
        dsimp only
        rw [Function.update_same]
    | succ j =>
      have hr : r ≠ some p := by
        simpa using huniq 0 (by simp) (by omega)
      have hjlt : j < rs.length := by simpa using hj
      have hpj : rs.getD j Option.none = some p := by simpa using hp
      have huniq' : ∀ k, k < rs.length → k ≠ j → rs.getD k Option.none ≠ some p := by
        intro k hk hkj
        simpa using huniq (k + 1) (by simpa using Nat.succ_lt_succ hk) (by omega)
      have harith : dst_count + (i0 + 1 + j) = dst_count + (i0 + (j + 1)) := by omega
      cases hrr : r with
      | none =>
        have := ih (i0 + 1) w j p hjlt hpj huniq'
        rw [show (flecs_record_patch_loop dstId dst_count (Option.none :: rs) i0 w) =
          (flecs_record_patch_loop dstId dst_count rs (i0 + 1) w) from rfl]
        rw [← harith]
        exact this
      | some q =>
        have hq : q ≠ p := fun he => hr (by rw [hrr, he])
        have hupd : (Function.update w.row q
            (ecsRowToRecord (dst_count + i0) (ecsRecordToRowFlags (w.row q)))) p =
            w.row p := Function.update_noteq (Ne.symm hq) _ _
        have := ih (i0 + 1)
          ({ row := Function.update w.row q
                (ecsRowToRecord (dst_count + i0) (ecsRecordToRowFlags (w.row q))),
             table := Function.update w.table q dstId }) j p hjlt hpj huniq'
        rw [show (flecs_record_patch_loop dstId dst_count (some q :: rs) i0 w) =
          (flecs_record_patch_loop dstId dst_count rs (i0 + 1)
            { row := Function.update w.row q
                (ecsRowToRecord (dst_count + i0) (ecsRecordToRowFlags (w.row q))),
              table := Function.update w.table q dstId }) from rfl]
        rw [← harith]
        constructor
        · rw [this.1]
          dsimp only
          rw [hupd]
        · exact this.2

/-- C3: merge of two distinct tables: the dst entity vector afterwards is
the dst rows followed by the src rows (so the multiset of entities is the
union), the src table ends with zero entities, and every src record
pointer is patched to row dst_count + i with its flag bits preserved and
its table set to the dst table. -/
theorem c3_merge_concatenates_and_patches (w : EntityIndex) (dstId : Nat)
    (dst src : TableData)
    (hlen : src.records.count = src.entities.count)
    (hbound : dst.entities.count + src.entities.count ≤ 2 ^ 28) :
    ((flecs_table_data_merge w dstId dst src).2.1.entities.data =
      dst.entities.data ++ src.entities.data) ∧
    ((flecs_table_data_merge w dstId dst src).2.2.entities.data = []) ∧
    (∀ i p, i < src.records.count →
      src.records.data.getD i Option.none = some p →
      (∀ k, k < src.records.count → k ≠ i →
        src.records.data.getD k Option.none ≠ some p) →
      ecsRecordToRow ((flecs_table_data_merge w dstId dst src).1.row p) =
        dst.entities.count + i ∧
      ecsRecordToRowFlags ((flecs_table_data_merge w dstId dst src).1.row p) =
        ecsRecordToRowFlags (w.row p) ∧
      (flecs_table_data_merge w dstId dst src).1.table p = dstId) := by
  have hw : (flecs_table_data_merge w dstId dst src).1 =
      flecs_record_patch_loop dstId dst.entities.count src.records.data 0 w := rfl
  have hcols : (flecs_table_data_merge w dstId dst src).2 =
      flecs_table_data_merge_columns dst src src.entities.count
        dst.entities.count := rfl
  refine ⟨?_, ?_, ?_⟩
  · rw [hcols]
    unfold flecs_table_data_merge_columns
    by_cases h0 : src.entities.count = 0
    · rw [if_pos (by simpa using h0)]
      have hnil : src.entities.data = [] :=
        List.eq_nil_of_length_eq_zero h0
      simp [hnil]
    · rw [if_neg (by simpa using h0)]
      by_cases hcap : dst.entities.cap < dst.entities.count + src.entities.count
      · simp only [if_pos hcap, Vec.data_setSize]
      · simp only [if_neg hcap]
  · rw [hcols]
    unfold flecs_table_data_merge_columns
    by_cases h0 : src.entities.count = 0
    · rw [if_pos (by simpa using h0)]
      exact List.eq_nil_of_length_eq_zero h0
    · rw [if_neg (by simpa using h0)]
  · intro i p hi hp huniq
    have hspec := patch_loop_spec dstId dst.entities.count src.records.data 0 w
      i p (by simpa [Vec.count] using hi) hp
      (by intro k hk hki; exact huniq k (by simpa [Vec.count] using hk) hki)
    have hlt : dst.entities.count + (0 + i) < 2 ^ 28 := by
      simp only [Vec.count] at hlen hi hbound ⊢
      omega
    rw [hw]
    refine ⟨?_, ?_, hspec.2⟩
    · rw [hspec.1, Nat.zero_add]
      rw [Nat.zero_add] at hlt
      exact ecsRecordToRow_pack hlt
    · rw [hspec.1, Nat.zero_add]
      rw [Nat.zero_add] at hlt
      exact ecsRecordToRowFlags_pack hlt

/-- One-row dst table for the merge witness. -/
def c3_dst : TableData :=
  { entities := ⟨[1], 2⟩, records := ⟨[some 5], 2⟩, columns := [],
    bitsets := [], dirty_state := Option.none,
    isComplex := false, hasDtors := false, hasMove := false }

/-- One-row src table for the merge witness. -/
def c3_src : TableData :=
  { entities := ⟨[2], 2⟩, records := ⟨[some 7], 2⟩, columns := [],
    bitsets := [], dirty_state := Option.none,
    isComplex := false, hasDtors := false, hasMove := false }

/-- C3 witness: merging the one-row src into the one-row dst yields
entities [1, 2] in dst, empties src, and patches record 7 to row 1 of
table 99. -/
theorem c3_merge_concatenates_and_patches_witness :
    ((flecs_table_data_merge c8_world 99 c3_dst c3_src).2.1.entities.data = [1, 2]) ∧
    ((flecs_table_data_merge c8_world 99 c3_dst c3_src).2.2.entities.data = []) ∧
    (ecsRecordToRow ((flecs_table_data_merge c8_world 99 c3_dst c3_src).1.row 7) = 1) ∧
    ((flecs_table_data_merge c8_world 99 c3_dst c3_src).1.table 7 = 99) := by
  have h := c3_merge_concatenates_and_patches c8_world 99 c3_dst c3_src rfl
    (by decide)
  have hp := h.2.2 0 7 (by decide) rfl
    (fun k hk hkne => absurd (Nat.lt_one_iff.mp hk) hkne)
  exact ⟨h.1, h.2.1, hp.1, hp.2.2⟩

/-! ## Helper lemmas for swap (claim C7) -/

theorem listSwap_length {α : Type} (d : α) (l : List α) (i j : Nat) :
    (listSwap d l i j).length = l.length := by
  simp [listSwap]

theorem listSwap_getD_fst {α : Type} (d : α) (l : List α) (i j : Nat)
    (hi : i < l.length) (hj : j < l.length) :
    (listSwap d l i j).getD i d = l.getD j d := by
  unfold listSwap
  rw [List.getD_eq_getElem _ _ (by simpa using hi), List.getElem_set]
  by_cases hji : j = i
  · subst hji
    rw [if_pos rfl]
  · rw [if_neg hji, List.getElem_set, if_pos rfl]

theorem listSwap_getD_snd {α : Type} (d : α) (l : List α) (i j : Nat)
    (hj : j < l.length) :
    (listSwap d l i j).getD j d = l.getD i d := by
  unfold listSwap
  rw [List.getD_eq_getElem _ _ (by simpa using hj), List.getElem_set_self]

theorem listSwap_getElem_other {α : Type} (d : α) (l : List α) (i j k : Nat)
    (hki : k ≠ i) (hkj : k ≠ j) (hk : k < (listSwap d l i j).length)
    (hk' : k < l.length) :
    (listSwap d l i j)[k] = l[k] := by
  unfold listSwap
  rw [List.getElem_set_ne (fun he => hkj he.symm),
    List.getElem_set_ne (fun he => hki he.symm)]

theorem listSwap_involutive {α : Type} (d : α) (l : List α) (i j : Nat)
    (hi : i < l.length) (hj : j < l.length) :
    listSwap d (listSwap d l i j) i j = l := by
  have hlen : (listSwap d l i j).length = l.length := listSwap_length d l i j
  apply List.ext_getElem
  · rw [listSwap_length, hlen]
  intro k hk1 hk2
  by_cases hkj : k = j
  · subst hkj
    rw [show (listSwap d (listSwap d l i k) i k)[k] =
        (listSwap d (listSwap d l i k) i k).getD k d from
      (List.getD_eq_getElem _ _ hk1).symm]
    rw [listSwap_getD_snd d _ i k (by rw [hlen]; exact hj)]
    rw [listSwap_getD_fst d l i k hi hj]
    exact List.getD_eq_getElem l d hk2
  · by_cases hki : k = i
    · subst hki
      rw [show (listSwap d (listSwap d l k j) k j)[k] =
          (listSwap d (listSwap d l k j) k j).getD k d from
        (List.getD_eq_getElem _ _ hk1).symm]
      rw [listSwap_getD_fst d _ k j (by rw [hlen]; exact hi) (by rw [hlen]; exact hj)]
      rw [listSwap_getD_snd d l k j hj]
      exact List.getD_eq_getElem l d hk2
    · rw [listSwap_getElem_other d _ i j k hki hkj hk1 (by rw [hlen]; exact hk2)]
      exact listSwap_getElem_other d l i j k hki hkj (by rw [hlen]; exact hk2) hk2

theorem swap_characterization (w' : EntityIndex) (dt : TableData)
    (a b q1 q2 : Nat) (hne : ¬ a = b)
    (h1 : dt.records.data.getD a Option.none = some q1)
    (h2 : dt.records.data.getD b Option.none = some q2) :
    flecs_table_data_swap w' dt a b =
      ({ row := Function.update (Function.update w'.row q1
            (ecsRowToRecord b (ecsRecordToRowFlags (w'.row q1)))) q2
            (ecsRowToRecord a (ecsRecordToRowFlags (w'.row q2))),
         table := w'.table },
       { dt with
         entities := { dt.entities with data := listSwap 0 dt.entities.data a b }
         records := { dt.records with
           data := (dt.records.data.set a (some q2)).set b (some q1) }
         dirty_state := flecs_table_data_mark_table_dirty dt.dirty_state 0
         bitsets := dt.bitsets.map (fun bc =>
           { bc with data := listSwap false bc.data a b })
         columns := dt.columns.map (fun c =>
           { c with data := { c.data with data := listSwap 0 c.data.data a b } }) }) := by
  unfold flecs_table_data_swap
  rw [if_neg (by simpa using hne), h1, h2]

/-- C7: swapping the same two valid rows twice restores the entity vector,
the record-pointer vector, every component column, every bitset column,
and both records' row fields in the entity index completely (the row
fields by the well-formedness invariant that a record's row bits name its
row); only the dirty counters may differ. -/
theorem c7_swap_involution (w : EntityIndex) (data : TableData)
    (a b p1 p2 : Nat)
    (ha : a < data.entities.count) (hb : b < data.entities.count)
    (ha28 : a < 2 ^ 28) (hb28 : b < 2 ^ 28)
    (hrl : data.records.count = data.entities.count)
    (hcols : ∀ c ∈ data.columns, c.data.count = data.entities.count)
    (hbs : ∀ bc ∈ data.bitsets, bc.data.length = data.entities.count)
    (hp1 : data.records.data.getD a Option.none = some p1)
    (hp2 : data.records.data.getD b Option.none = some p2)
    (hw1 : ecsRecordToRow (w.row p1) = a) (hw2 : ecsRecordToRow (w.row p2) = b)
    (hu1 : w.row p1 < 2 ^ 32) (hu2 : w.row p2 < 2 ^ 32) :
    ((flecs_table_data_swap (flecs_table_data_swap w data a b).1
        (flecs_table_data_swap w data a b).2 a b).2.entities = data.entities) ∧
    ((flecs_table_data_swap (flecs_table_data_swap w data a b).1
        (flecs_table_data_swap w data a b).2 a b).2.records = data.records) ∧
    ((flecs_table_data_swap (flecs_table_data_swap w data a b).1
        (flecs_table_data_swap w data a b).2 a b).2.columns = data.columns) ∧
    ((flecs_table_data_swap (flecs_table_data_swap w data a b).1
        (flecs_table_data_swap w data a b).2 a b).2.bitsets = data.bitsets) ∧
    ((flecs_table_data_swap (flecs_table_data_swap w data a b).1
        (flecs_table_data_swap w data a b).2 a b).1.row = w.row) ∧
    ((flecs_table_data_swap (flecs_table_data_swap w data a b).1
        (flecs_table_data_swap w data a b).2 a b).1.table = w.table) := by
  by_cases hab : a = b
  · subst hab
    have hid : flecs_table_data_swap w data a a = (w, data) := by
      unfold flecs_table_data_swap
      rw [if_pos (by simp)]
    rw [hid]
    rw [hid]
    exact ⟨rfl, rfl, rfl, rfl, rfl, rfl⟩
  · have hpp : p1 ≠ p2 := by
      intro he
      apply hab
      rw [← hw1, ← hw2, he]
    have hlenE : data.entities.data.length = data.entities.count := rfl
    have hlenR : data.records.data.length = data.entities.count := hrl
    have hs1 := swap_characterization w data a b p1 p2 hab hp1 hp2
    have hreca : ((data.records.data.set a (some p2)).set b (some p1)).getD a
        Option.none = some p2 := by
      rw [List.getD_eq_getElem _ _ (by simp only [List.length_set]; omega)]
      rw [List.getElem_set_ne (fun he => hab he.symm), List.getElem_set_self]
    have hrecb : ((data.records.data.set a (some p2)).set b (some p1)).getD b
        Option.none = some p1 := by
      rw [List.getD_eq_getElem _ _ (by simp only [List.length_set]; omega)]
      rw [List.getElem_set_self]
    have hs2 := swap_characterization (flecs_table_data_swap w data a b).1
      (flecs_table_data_swap w data a b).2 a b p2 p1 hab
      (by rw [hs1]; exact hreca) (by rw [hs1]; exact hrecb)
    have hW1row1 : (flecs_table_data_swap w data a b).1.row p1 =
        ecsRowToRecord b (ecsRecordToRowFlags (w.row p1)) := by
      rw [hs1]
      dsimp only
      rw [Function.update_noteq hpp, Function.update_same]
    have hW1row2 : (flecs_table_data_swap w data a b).1.row p2 =
        ecsRowToRecord a (ecsRecordToRowFlags (w.row p2)) := by
      rw [hs1]
      dsimp only
      rw [Function.update_same]
    refine ⟨?_, ?_, ?_, ?_, ?_, ?_⟩
    · rw [hs2]
      dsimp only
      rw [hs1]
      dsimp only
      rw [listSwap_involutive 0 data.entities.data a b (by omega) (by omega)]
    · rw [hs2]
      dsimp only
      rw [hs1]
      dsimp only
      have hrr : (((data.records.data.set a (some p2)).set b (some p1)).set a
          (some p1)).set b (some p2) = data.records.data := by
        apply List.ext_getElem
        · simp only [List.length_set]
        intro k hk1 hk2
        simp only [List.length_set] at hk1
        by_cases hkb : k = b
        · subst hkb
          rw [List.getElem_set_self]
          rw [List.getD_eq_getElem _ _ (by omega)] at hp2
          exact hp2.symm
        · rw [List.getElem_set_ne (fun he => hkb he.symm)]
          by_cases hka : k = a
          · subst hka
            rw [List.getElem_set_self]
            rw [List.getD_eq_getElem _ _ (by omega)] at hp1
            exact hp1.symm
          · rw [List.getElem_set_ne (fun he => hka he.symm),
              List.getElem_set_ne (fun he => hkb he.symm),
              List.getElem_set_ne (fun he => hka he.symm)]
      rw [hrr]
    · rw [hs2]
      dsimp only
      rw [hs1]
      dsimp only
      rw [List.map_map]
      have hff : ∀ c ∈ data.columns,
          ((fun c => ({ c with
              data := { c.data with data := listSwap 0 c.data.data a b } } : Column)) ∘
            (fun c => ({ c with
              data := { c.data with data := listSwap 0 c.data.data a b } } : Column))) c =
            id c := by
        intro c hc
        have hcl : c.data.data.length = data.entities.count := hcols c hc
        show ({ c with data := { c.data with
            data := listSwap 0 (listSwap 0 c.data.data a b) a b } } : Column) = c
        rw [listSwap_involutive 0 c.data.data a b (by omega) (by omega)]
      rw [List.map_congr_left hff, List.map_id]
    · rw [hs2]
      dsimp only
      rw [hs1]
      dsimp only
      rw [List.map_map]
      have hff : ∀ bc ∈ data.bitsets,
          ((fun bc => ({ bc with data := listSwap false bc.data a b } : BitsetCol)) ∘
            (fun bc => ({ bc with data := listSwap false bc.data a b } : BitsetCol))) bc =
            id bc := by
        intro bc hbc
        have hbl : bc.data.length = data.entities.count := hbs bc hbc
        show ({ bc with data := listSwap false (listSwap false bc.data a b) a b } :
          BitsetCol) = bc
        rw [listSwap_involutive false bc.data a b (by omega) (by omega)]
      rw [List.map_congr_left hff, List.map_id]
    · rw [hs2]
      dsimp only
      funext q
      by_cases hq1 : q = p1
      · subst hq1
        rw [Function.update_same, hW1row1]
        rw [ecsRecordToRowFlags_pack hb28]
        rw [← hw1]
        exact row_field_recompose hu1
      · rw [Function.update_noteq hq1]
        by_cases hq2 : q = p2
        · subst hq2
          rw [Function.update_same, hW1row2]
          rw [ecsRecordToRowFlags_pack ha28]
          rw [← hw2]
          exact row_field_recompose hu2
        · rw [Function.update_noteq hq2]
          rw [hs1]
          dsimp only
          rw [Function.update_noteq hq2, Function.update_noteq hq1]
    · rw [hs2]
      dsimp only
      rw [hs1]

/-- Entity index for the swap witness: record 1 at row 0, record 2 at
row 1, no flag bits. -/
def c7_world : EntityIndex :=
  { row := fun p => if p = 1 then 0 else 1, table := fun _ => 0 }

/-- Two-row complex table with one component column and one bitset column
for the swap witness. -/
def c7_state : TableData :=
  { entities := ⟨[100, 200], 2⟩, records := ⟨[some 1, some 2], 2⟩,
    columns := [{ id := 3, data := ⟨[7, 8], 2⟩, ti := Hooks.none }],
    bitsets := [{ id := 4, data := [true, false] }],
    dirty_state := Option.none,
    isComplex := true, hasDtors := false, hasMove := false }

/-- C7 witness: double swap of rows 0 and 1 on the concrete table restores
entities, records, columns, bitsets and the entity-index row fields. -/
theorem c7_swap_involution_witness :
    ((flecs_table_data_swap (flecs_table_data_swap c7_world c7_state 0 1).1
        (flecs_table_data_swap c7_world c7_state 0 1).2 0 1).2.entities =
      c7_state.entities) ∧
    ((flecs_table_data_swap (flecs_table_data_swap c7_world c7_state 0 1).1
        (flecs_table_data_swap c7_world c7_state 0 1).2 0 1).2.columns =
      c7_state.columns) ∧
    ((flecs_table_data_swap (flecs_table_data_swap c7_world c7_state 0 1).1
        (flecs_table_data_swap c7_world c7_state 0 1).2 0 1).1.row =
      c7_world.row) := by
  have h := c7_swap_involution c7_world c7_state 0 1 1 2
    (by decide) (by decide) (by decide) (by decide) rfl
    (by
      intro c hc
      simp only [c7_state, List.mem_singleton] at hc
      subst hc
      rfl)
    (by
      intro bc hbc
      simp only [c7_state, List.mem_singleton] at hbc
      subst hbc
      rfl)
    rfl rfl (by decide) (by decide) (by decide) (by decide)
  exact ⟨h.1, h.2.2.1, h.2.2.2.2.1⟩

end Flecs
